import Mathlib

/-!
# Verification of the time-capsule crypto core (`encryptor-wasi`)

Shallow embedding of `src/rust/encryptor-wasi/src/lib.rs` and
`src/rust/encryptor-wasi/src/hash.rs`, together with the cryptographic
primitives those modules call out to (the `chacha20poly1305`, `hkdf`,
`sha2`, `blake3` and `hex` crates, and Rust's `u8::from_str_radix`),
implemented bit-for-bit over `Nat`-valued bytes and 32-bit words.

Bytes are modelled as `Nat` (meaningful values `< 256`), 32-bit machine
words as `Nat` reduced modulo `2 ^ 32` at every arithmetic step, and Rust
strings as their UTF-8 byte sequences (`List Nat`).  Randomness consumed
from `OsRng` (nonces, salts) is modelled by passing the sampled bytes as
explicit parameters.
-/

namespace TimeCapsule

/-! ## 32-bit word and byte-sequence helpers -/

/-- Addition of 32-bit words. -/
def add32 (a b : Nat) : Nat := (a + b) % 4294967296

/-- XOR of 32-bit words (XOR never overflows the width of its inputs). -/
def xor32 (a b : Nat) : Nat := a ^^^ b

/-- Left rotation of a 32-bit word by `n` bits (`0 < n < 32`). -/
def rotl32 (a n : Nat) : Nat := ((a <<< n) ||| (a >>> (32 - n))) % 4294967296

/-- Right rotation of a 32-bit word by `n` bits (`0 < n < 32`). -/
def rotr32 (a n : Nat) : Nat := ((a >>> n) ||| (a <<< (32 - n))) % 4294967296

/-- The `n` little-endian bytes of `x` (drops bits above `8 * n`). -/
def leBytes (n x : Nat) : List Nat := (List.range n).map (fun i => (x >>> (8 * i)) % 256)

/-- Read a byte sequence as a little-endian natural number. -/
def leNat (bs : List Nat) : Nat := bs.foldr (fun b acc => b + 256 * acc) 0

/-- Fuel-driven worker for `chunksOf` (structural recursion on the fuel, so
that concrete evaluation reduces). -/
def chunksOfGo (n : Nat) : Nat → List α → List (List α)
  | _, [] => []
  | 0, l => [l]
  | fuel + 1, x :: xs => (x :: xs.take (n - 1)) :: chunksOfGo n fuel (xs.drop (n - 1))

/-- Split a list into chunks of `n` elements; every chunk is nonempty and all
but the last have exactly `n` elements (for `1 ≤ n`). -/
def chunksOf (n : Nat) (l : List α) : List (List α) := chunksOfGo n l.length l

/-- Decode a byte sequence into little-endian 32-bit words, four bytes at a
time. -/
def bytesToWordsLE (bs : List Nat) : List Nat := (chunksOf 4 bs).map leNat

/-- Serialize a list of 32-bit words as little-endian bytes. -/
def wordsToBytesLE (ws : List Nat) : List Nat := (ws.map (leBytes 4)).flatten

/-- Pointwise XOR of two byte sequences, truncated to the shorter one. -/
def xorBytes (a b : List Nat) : List Nat := List.zipWith (fun x y => x ^^^ y) a b

/-! ## ChaCha20 (RFC 8439) -/

/-- The four ChaCha constant words ("expand 32-byte k"). -/
def chachaConstants : List Nat := [1634760805, 857760878, 2036477234, 1797285236]

/-- The ChaCha quarter round applied to positions `ia ib ic idx` of a 16-word
state. -/
def chachaQR (s : List Nat) (ia ib ic idx : Nat) : List Nat :=
  let a0 := s.getD ia 0
  let b0 := s.getD ib 0
  let c0 := s.getD ic 0
  let d0 := s.getD idx 0
  let a1 := add32 a0 b0
  let d1 := rotl32 (xor32 d0 a1) 16
  let c1 := add32 c0 d1
  let b1 := rotl32 (xor32 b0 c1) 12
  let a2 := add32 a1 b1
  let d2 := rotl32 (xor32 d1 a2) 8
  let c2 := add32 c1 d2
  let b2 := rotl32 (xor32 b1 c2) 7
  (((s.set ia a2).set ib b2).set ic c2).set idx d2

/-- One ChaCha double round: four column rounds then four diagonal rounds. -/
def chachaDoubleRound (s : List Nat) : List Nat :=
  let s := chachaQR s 0 4 8 12
  let s := chachaQR s 1 5 9 13
  let s := chachaQR s 2 6 10 14
  let s := chachaQR s 3 7 11 15
  let s := chachaQR s 0 5 10 15
  let s := chachaQR s 1 6 11 12
  let s := chachaQR s 2 7 8 13
  chachaQR s 3 4 9 14

/-- The ChaCha20 rounds: ten double rounds. -/
def chachaRounds (s : List Nat) : List Nat := chachaDoubleRound^[10] s

/-- The initial ChaCha20 state for a 32-byte key, 32-bit block counter and
12-byte IETF nonce. -/
def chachaState (key : List Nat) (counter : Nat) (nonce : List Nat) : List Nat :=
  chachaConstants ++ bytesToWordsLE key ++ [counter % 4294967296] ++ bytesToWordsLE nonce

/-- One 64-byte ChaCha20 keystream block (RFC 8439 block function). -/
def chachaBlock (key : List Nat) (counter : Nat) (nonce : List Nat) : List Nat :=
  let s0 := chachaState key counter nonce
  wordsToBytesLE (List.zipWith add32 (chachaRounds s0) s0)

/-- Byte `i` of the ChaCha20 encryption keystream (block counter starts at 1
for payload encryption, per RFC 8439). -/
def chachaKeystreamByte (key nonce : List Nat) (i : Nat) : Nat :=
  (chachaBlock key (1 + i / 64) nonce).getD (i % 64) 0

/-- The first `n` bytes of the ChaCha20 payload keystream. -/
def chachaKeystream (key nonce : List Nat) (n : Nat) : List Nat :=
  (List.range n).map (chachaKeystreamByte key nonce)

/-! ## Poly1305 (RFC 8439) -/

/-- Clamp the Poly1305 `r` value. -/
def polyClamp (r : Nat) : Nat := r &&& 21267647620597763993911028882763415551

/-- The Poly1305 prime `2 ^ 130 - 5`. -/
def polyP : Nat := 1361129467683753853853498429727072845819

/-- Poly1305 MAC of `msg` under a 32-byte one-time key. -/
def poly1305 (key msg : List Nat) : List Nat :=
  let r := polyClamp (leNat (key.take 16))
  let s := leNat (key.drop 16)
  let h := (chunksOf 16 msg).foldl
    (fun h blk => ((h + leNat blk + 2 ^ (8 * blk.length)) * r) % polyP) 0
  leBytes 16 ((h + s) % 340282366920938463463374607431768211456)

/-! ## ChaCha20-Poly1305 AEAD (RFC 8439) and XChaCha20 extension -/

/-- Zero padding bringing a byte sequence up to a 16-byte boundary. -/
def pad16 (l : List Nat) : List Nat := List.replicate ((16 - l.length % 16) % 16) 0

/-- The 32-byte one-time Poly1305 key: the first half of ChaCha20 block 0. -/
def polyKeyBytes (key nonce : List Nat) : List Nat := (chachaBlock key 0 nonce).take 32

/-- The byte sequence authenticated by the AEAD tag. -/
def aeadMacData (aad ct : List Nat) : List Nat :=
  aad ++ pad16 aad ++ ct ++ pad16 ct ++ leBytes 8 aad.length ++ leBytes 8 ct.length

/-- ChaCha20-Poly1305 encryption with empty associated data: ciphertext body
followed by the 16-byte tag. -/
def chachaPolyEncrypt (key nonce pt : List Nat) : List Nat :=
  let ct := xorBytes pt (chachaKeystream key nonce pt.length)
  ct ++ poly1305 (polyKeyBytes key nonce) (aeadMacData [] ct)

/-- ChaCha20-Poly1305 decryption with empty associated data: `none` exactly
when the input is shorter than a tag or the recomputed tag mismatches. -/
def chachaPolyDecrypt (key nonce ctAndTag : List Nat) : Option (List Nat) :=
  if ctAndTag.length < 16 then none
  else
    let ct := ctAndTag.take (ctAndTag.length - 16)
    let tag := ctAndTag.drop (ctAndTag.length - 16)
    if tag = poly1305 (polyKeyBytes key nonce) (aeadMacData [] ct) then
      some (xorBytes ct (chachaKeystream key nonce ct.length))
    else none

/-- HChaCha20: derive a 32-byte subkey from a key and a 16-byte nonce; the
rounds are applied without the final feed-forward addition and words 0-3 and
12-15 are emitted. -/
def hchacha20 (key nonce16 : List Nat) : List Nat :=
  let s := chachaRounds (chachaConstants ++ bytesToWordsLE key ++ bytesToWordsLE nonce16)
  wordsToBytesLE (s.take 4 ++ s.drop 12)

/-- The ChaCha20 nonce used by XChaCha20: four zero bytes then the last eight
bytes of the 24-byte nonce. -/
def xchachaSubNonce (nonce24 : List Nat) : List Nat := [0, 0, 0, 0] ++ nonce24.drop 16

/-- XChaCha20-Poly1305 encryption (the `chacha20poly1305` crate's
`XChaCha20Poly1305`): HChaCha20 subkey, then ChaCha20-Poly1305. -/
def xchachaPolyEncrypt (key nonce24 pt : List Nat) : List Nat :=
  chachaPolyEncrypt (hchacha20 key (nonce24.take 16)) (xchachaSubNonce nonce24) pt

/-- XChaCha20-Poly1305 decryption. -/
def xchachaPolyDecrypt (key nonce24 ctAndTag : List Nat) : Option (List Nat) :=
  chachaPolyDecrypt (hchacha20 key (nonce24.take 16)) (xchachaSubNonce nonce24) ctAndTag

/-! ## SHA-256 (FIPS 180-4), HMAC-SHA256 (RFC 2104) and HKDF (RFC 5869)

These model the `sha2` and `hkdf` crates used by `derive_key_from_wallet`. -/

/-- The `n` big-endian bytes of `x`. -/
def beBytes (n x : Nat) : List Nat :=
  (List.range n).map (fun i => (x >>> (8 * (n - 1 - i))) % 256)

/-- Read a byte sequence as a big-endian natural number. -/
def beNat (bs : List Nat) : Nat := bs.foldl (fun acc b => acc * 256 + b) 0

/-- The SHA-256 round constants (the fractional parts of the cube roots of
the first 64 primes, here in decimal). -/
def sha256K : List Nat :=
  [1116352408, 1899447441, 3049323471, 3921009573, 961987163, 1508970993,
   2453635748, 2870763221, 3624381080, 310598401, 607225278, 1426881987,
   1925078388, 2162078206, 2614888103, 3248222580, 3835390401, 4022224774,
   264347078, 604807628, 770255983, 1249150122, 1555081692, 1996064986,
   2554220882, 2821834349, 2952996808, 3210313671, 3336571891, 3584528711,
   113926993, 338241895, 666307205, 773529912, 1294757372, 1396182291,
   1695183700, 1986661051, 2177026350, 2456956037, 2730485921, 2820302411,
   3259730800, 3345764771, 3516065817, 3600352804, 4094571909, 275423344,
   430227734, 506948616, 659060556, 883997877, 958139571, 1322822218,
   1537002063, 1747873779, 1955562222, 2024104815, 2227730452, 2361852424,
   2428436474, 2756734187, 3204031479, 3329325298]

/-- The SHA-256 initial hash value (fractional parts of the square roots of
the first 8 primes, in decimal). -/
def sha256H0 : List Nat :=
  [1779033703, 3144134277, 1013904242, 2773480762,
   1359893119, 2600822924, 528734635, 1541459225]

/-- Bitwise complement of a 32-bit word. -/
def not32 (a : Nat) : Nat := a ^^^ 4294967295

/-- The 64-word SHA-256 message schedule of one 64-byte block. -/
def sha256Schedule (block : List Nat) : List Nat :=
  (List.range 64).foldl
    (fun w i =>
      if i < 16 then w ++ [beNat ((block.drop (4 * i)).take 4)]
      else
        let w15 := w.getD (i - 15) 0
        let w2 := w.getD (i - 2) 0
        let s0 := (rotr32 w15 7) ^^^ (rotr32 w15 18) ^^^ (w15 >>> 3)
        let s1 := (rotr32 w2 17) ^^^ (rotr32 w2 19) ^^^ (w2 >>> 10)
        w ++ [(w.getD (i - 16) 0 + s0 + w.getD (i - 7) 0 + s1) % 4294967296])
    []

/-- One SHA-256 compression round on the working state `[a,b,c,d,e,f,g,h]`. -/
def sha256Round (w : List Nat) (st : List Nat) (i : Nat) : List Nat :=
  let a := st.getD 0 0
  let b := st.getD 1 0
  let c := st.getD 2 0
  let d := st.getD 3 0
  let e := st.getD 4 0
  let f := st.getD 5 0
  let g := st.getD 6 0
  let h := st.getD 7 0
  let S1 := (rotr32 e 6) ^^^ (rotr32 e 11) ^^^ (rotr32 e 25)
  let ch := (e &&& f) ^^^ (not32 e &&& g)
  let t1 := (h + S1 + ch + sha256K.getD i 0 + w.getD i 0) % 4294967296
  let S0 := (rotr32 a 2) ^^^ (rotr32 a 13) ^^^ (rotr32 a 22)
  let maj := (a &&& b) ^^^ (a &&& c) ^^^ (b &&& c)
  let t2 := (S0 + maj) % 4294967296
  [(t1 + t2) % 4294967296, a, b, c, (d + t1) % 4294967296, e, f, g]

/-- SHA-256 compression of one 64-byte block into the chaining value. -/
def sha256Compress (h block : List Nat) : List Nat :=
  let w := sha256Schedule block
  let st := (List.range 64).foldl (sha256Round w) h
  List.zipWith add32 h st

/-- SHA-256 padding: `0x80`, zeros, and the 64-bit big-endian bit length. -/
def sha256Pad (msg : List Nat) : List Nat :=
  msg ++ [128] ++ List.replicate ((64 - (msg.length + 9) % 64) % 64) 0
      ++ beBytes 8 (8 * msg.length)

/-- SHA-256 of a byte sequence (32 bytes of output). -/
def sha256 (msg : List Nat) : List Nat :=
  let h := (chunksOf 64 (sha256Pad msg)).foldl sha256Compress sha256H0
  (h.map (beBytes 4)).flatten

/-- HMAC-SHA256 (RFC 2104) with a 64-byte block size. -/
def hmacSha256 (key msg : List Nat) : List Nat :=
  let k0 := if key.length > 64 then sha256 key else key
  let kp := k0 ++ List.replicate (64 - k0.length) 0
  sha256 ((kp.map (fun b => b ^^^ 0x5c)) ++ sha256 ((kp.map (fun b => b ^^^ 0x36)) ++ msg))

/-- HKDF-Extract (RFC 5869): the pseudorandom key. -/
def hkdfExtract (salt ikm : List Nat) : List Nat := hmacSha256 salt ikm

/-- The HKDF-Expand output blocks `T(1), …, T(n)`, chained per RFC 5869. -/
def hkdfBlocks (prk info : List Nat) : Nat → List (List Nat)
  | 0 => []
  | n + 1 =>
    let prev := hkdfBlocks prk info n
    prev ++ [hmacSha256 prk ((prev.getLast?.getD []) ++ info ++ [n + 1])]

/-- HKDF-Expand (RFC 5869): `none` exactly when more than `255` hash blocks
of output are requested (the `hkdf` crate's `InvalidLength` error). -/
def hkdfExpand (prk info : List Nat) (len : Nat) : Option (List Nat) :=
  if len > 255 * 32 then none
  else some (((hkdfBlocks prk info ((len + 31) / 32)).flatten).take len)

/-! ## BLAKE3 (from the official specification; models the `blake3` crate) -/

/-- The BLAKE3 initialization vector (shared with SHA-256's `H0`). -/
def blake3IV : List Nat := sha256H0

/-- The BLAKE3 message-word permutation applied between rounds. -/
def blake3Perm : List Nat := [2, 6, 3, 10, 7, 0, 4, 13, 1, 11, 12, 5, 9, 14, 15, 8]

/-- BLAKE3 domain flags. -/
def b3FlagChunkStart : Nat := 1

/-- BLAKE3 `CHUNK_END` flag. -/
def b3FlagChunkEnd : Nat := 2

/-- BLAKE3 `PARENT` flag. -/
def b3FlagParent : Nat := 4

/-- BLAKE3 `ROOT` flag. -/
def b3FlagRoot : Nat := 8

/-- The BLAKE3 mixing function `g` on positions `a b c d` with message words
`mx my` (rotations 16, 12, 8, 7, to the right). -/
def b3g (s : List Nat) (a b c d mx my : Nat) : List Nat :=
  let a0 := s.getD a 0
  let b0 := s.getD b 0
  let c0 := s.getD c 0
  let d0 := s.getD d 0
  let a1 := (a0 + b0 + mx) % 4294967296
  let d1 := rotr32 (d0 ^^^ a1) 16
  let c1 := (c0 + d1) % 4294967296
  let b1 := rotr32 (b0 ^^^ c1) 12
  let a2 := (a1 + b1 + my) % 4294967296
  let d2 := rotr32 (d1 ^^^ a2) 8
  let c2 := (c1 + d2) % 4294967296
  let b2 := rotr32 (b1 ^^^ c2) 7
  (((s.set a a2).set b b2).set c c2).set d d2

/-- One BLAKE3 round: columns then diagonals. -/
def b3round (s m : List Nat) : List Nat :=
  let mw (i : Nat) := m.getD i 0
  let s := b3g s 0 4 8 12 (mw 0) (mw 1)
  let s := b3g s 1 5 9 13 (mw 2) (mw 3)
  let s := b3g s 2 6 10 14 (mw 4) (mw 5)
  let s := b3g s 3 7 11 15 (mw 6) (mw 7)
  let s := b3g s 0 5 10 15 (mw 8) (mw 9)
  let s := b3g s 1 6 11 12 (mw 10) (mw 11)
  let s := b3g s 2 7 8 13 (mw 12) (mw 13)
  b3g s 3 4 9 14 (mw 14) (mw 15)

/-- Permute the sixteen message words for the next round. -/
def b3permute (m : List Nat) : List Nat := blake3Perm.map (fun i => m.getD i 0)

/-- The BLAKE3 compression function: 8-word chaining value, 16 message words,
64-bit counter, block length and flags, producing 16 output words. -/
def blake3Compress (cv block : List Nat) (counter blockLen flags : Nat) : List Nat :=
  let st0 := cv.take 8 ++ blake3IV.take 4
      ++ [counter % 4294967296, (counter >>> 32) % 4294967296, blockLen % 4294967296,
          flags % 4294967296]
  let fin := (List.range 7).foldl (fun p _ => (b3round p.1 p.2, b3permute p.2)) (st0, block)
  let st := fin.1
  (List.range 8).map (fun i => st.getD i 0 ^^^ st.getD (i + 8) 0)
    ++ (List.range 8).map (fun i => st.getD (i + 8) 0 ^^^ cv.getD i 0)

/-- The pending final compression of a chunk or parent node, kept symbolic so
the `ROOT` flag can be added when it turns out to be the root. -/
structure B3Output where
  cv : List Nat
  block : List Nat
  counter : Nat
  blockLen : Nat
  flags : Nat

/-- The 8-word chaining value of a finished (non-root) node. -/
def B3Output.chainingValue (o : B3Output) : List Nat :=
  (blake3Compress o.cv o.block o.counter o.blockLen o.flags).take 8

/-- The 32-byte root digest: rerun the final compression with `ROOT` set. -/
def B3Output.rootBytes (o : B3Output) : List Nat :=
  (wordsToBytesLE (blake3Compress o.cv o.block o.counter o.blockLen
      (o.flags ||| b3FlagRoot))).take 32

/-- Load a (≤ 64 byte) block as 16 little-endian words, zero-padded. -/
def b3BlockWords (block : List Nat) : List Nat :=
  bytesToWordsLE (block ++ List.replicate (64 - block.length) 0)

/-- Process the blocks of one chunk: all but the last feed the chaining value,
the last is left pending.  `first` marks the chunk's first block
(`CHUNK_START`); the last block carries `CHUNK_END`. -/
def b3ChunkBlocks (t : Nat) (cv : List Nat) (first : Bool) : List (List Nat) → B3Output
  | [] => ⟨cv, b3BlockWords [], t, 0, b3FlagChunkStart ||| b3FlagChunkEnd⟩
  | [b] => ⟨cv, b3BlockWords b, t, b.length,
      (if first then b3FlagChunkStart else 0) ||| b3FlagChunkEnd⟩
  | b :: b' :: rest =>
    b3ChunkBlocks t
      ((blake3Compress cv (b3BlockWords b) t b.length
          (if first then b3FlagChunkStart else 0)).take 8)
      false (b' :: rest)

/-- The pending output of the chunk with counter `t` holding `bytes`
(at most 1024 bytes; the empty input forms a single empty block). -/
def b3ChunkOutput (t : Nat) (bytes : List Nat) : B3Output :=
  b3ChunkBlocks t blake3IV true (if bytes = [] then [[]] else chunksOf 64 bytes)

/-- A parent node over two child chaining values. -/
def b3ParentOutput (l r : List Nat) : B3Output := ⟨blake3IV, l ++ r, 0, 64, b3FlagParent⟩

/-- The number of bytes covered by the left subtree: the largest
power-of-two number of full chunks that leaves at least one byte on the
right. -/
def b3LeftLen (n : Nat) : Nat := 1024 * 2 ^ (Nat.log 2 ((n + 1023) / 1024 - 1))

/-- The chaining value of the subtree whose first chunk has counter `t`. -/
def b3SubtreeCV (t : Nat) (bytes : List Nat) : List Nat :=
  if bytes.length ≤ 1024 then (b3ChunkOutput t bytes).chainingValue
  else
    let ll := b3LeftLen bytes.length
    (b3ParentOutput (b3SubtreeCV t (bytes.take ll))
      (b3SubtreeCV (t + ll / 1024) (bytes.drop ll))).chainingValue
  termination_by bytes.length
  decreasing_by
  · simp only [List.length_take]
    have h1 : 2 ^ Nat.log 2 ((bytes.length + 1023) / 1024 - 1)
        ≤ (bytes.length + 1023) / 1024 - 1 :=
      Nat.pow_log_le_self 2 (by omega)
    simp only [b3LeftLen]
    omega
  · simp only [List.length_drop]
    have h1 : (0:Nat) < 2 ^ Nat.log 2 ((bytes.length + 1023) / 1024 - 1) :=
      Nat.pos_pow_of_pos _ (by omega)
    simp only [b3LeftLen]
    omega

/-- The pending root node of the whole input. -/
def b3RootOutput (bytes : List Nat) : B3Output :=
  if bytes.length ≤ 1024 then b3ChunkOutput 0 bytes
  else
    let ll := b3LeftLen bytes.length
    b3ParentOutput (b3SubtreeCV 0 (bytes.take ll)) (b3SubtreeCV (ll / 1024) (bytes.drop ll))

/-- BLAKE3 hash (default 32-byte output) of a byte sequence. -/
def blake3 (bytes : List Nat) : List Nat := (b3RootOutput bytes).rootBytes

/-! ## The `hex` crate and `u8::from_str_radix`

Rust strings are modelled as their UTF-8 byte sequences (`List Nat`); all the
string operations the repository performs on them (`len`, `starts_with`,
byte-range slicing, `from_str_radix`) are byte-level in Rust as well. -/

/-- The value of an ASCII hex digit (`char::to_digit(16)` on a byte read as a
character, which only ever succeeds on ASCII digits and letters). -/
def hexDigitVal (c : Nat) : Option Nat :=
  if 48 ≤ c ∧ c ≤ 57 then some (c - 48)
  else if 97 ≤ c ∧ c ≤ 102 then some (c - 87)
  else if 65 ≤ c ∧ c ≤ 70 then some (c - 55)
  else none

/-- `hex::decode` on the byte pairs of a string; `none` on an odd tail or a
non-hex character (the crate's `OddLength` / `InvalidHexCharacter` errors are
collapsed, as the repository only branches on failure). -/
def hexDecodePairs : List Nat → Option (List Nat)
  | [] => some []
  | [_] => none
  | hi :: lo :: rest => do
    let h ← hexDigitVal hi
    let l ← hexDigitVal lo
    let r ← hexDecodePairs rest
    pure ((16 * h + l) :: r)

/-- The lowercase ASCII hex digit for a value `< 16`. -/
def hexDigitChar (d : Nat) : Nat := if d < 10 then 48 + d else 87 + d

/-- `hex::encode`: two lowercase hex digits per byte. -/
def hexEncode (bs : List Nat) : List Nat :=
  (bs.map (fun b => [hexDigitChar (b / 16), hexDigitChar (b % 16)])).flatten

/-- Rust's `u8::from_str_radix(s, 16)` on the bytes of `s`: rejects the empty
string and a lone sign; accepts a leading `+` (but, `u8` being unsigned, not
`-`); then folds hex digits with a 255 overflow check. -/
def fromStrRadix16U8 (s : List Nat) : Option Nat :=
  match s with
  | [] => none
  | c :: rest =>
    let digits := if c = 43 then rest else c :: rest
    if digits = [] then none
    else
      digits.foldlM
        (fun acc c => do
          let d ← hexDigitVal c
          let r := acc * 16 + d
          if r ≤ 255 then some r else none)
        0

/-! ## `hash.rs`: the Hashing Engine -/

/-- `HashError` (`hash.rs`). -/
inductive HashError
  | InvalidHashLength (n : Nat)
  | ComputationFailed (msg : String)
  deriving DecidableEq, Repr

/-- `HashResult` (`hash.rs`): digest plus metadata. -/
structure HashResult where
  hash : List Nat
  algorithm : String
  input_size : Nat
  deriving DecidableEq, Repr

/-- `blake3::Hasher`, modelled extensionally: its abstract state is the byte
sequence absorbed so far, and `finalize` hashes it — the crate's incremental
chunk/tree machinery is an implementation of exactly this function. -/
structure Hasher where
  absorbed : List Nat
  deriving DecidableEq, Repr

/-- `blake3::Hasher::new()`. -/
def Hasher.new : Hasher := ⟨[]⟩

/-- `blake3::Hasher::update`: absorb more input bytes. -/
def Hasher.update (h : Hasher) (content : List Nat) : Hasher := ⟨h.absorbed ++ content⟩

/-- `blake3::Hasher::finalize` (default 32-byte output). -/
def Hasher.finalize (h : Hasher) : List Nat := blake3 h.absorbed

/-- `hash_content` (`hash.rs`): BLAKE3 digest with metadata. -/
def hash_content (content : List Nat) : HashResult :=
  let hasher := Hasher.new
  let hasher := hasher.update content
  { hash := hasher.finalize, algorithm := "BLAKE3", input_size := content.length }

/-- `hash_content_bytes` (`hash.rs`): BLAKE3 digest bytes only. -/
def hash_content_bytes (content : List Nat) : List Nat :=
  let hasher := Hasher.new
  let hasher := hasher.update content
  hasher.finalize

/-- `verify_content_hash` (`hash.rs`). -/
def verify_content_hash (content expected_hash : List Nat) : Bool :=
  hash_content_bytes content = expected_hash

/-- `verify_content_hash_result` (`hash.rs`). -/
def verify_content_hash_result (content : List Nat) (expected : HashResult) : Bool :=
  let computed := hash_content content
  computed.hash = expected.hash ∧ computed.input_size = content.length

/-- `hash_multiple_contents` (`hash.rs`): one hasher updated with each piece
in order, alongside a running total size. -/
def hash_multiple_contents (contents : List (List Nat)) : HashResult :=
  let acc := contents.foldl (fun (p : Hasher × Nat) content =>
    (p.1.update content, p.2 + content.length)) (Hasher.new, 0)
  { hash := acc.1.finalize, algorithm := "BLAKE3", input_size := acc.2 }

/-- Rust `str::is_char_boundary` on a UTF-8 byte sequence: position 0, the
end, or any non-continuation byte. -/
def isCharBoundary (s : List Nat) (p : Nat) : Prop :=
  p = 0 ∨ p = s.length ∨ (p < s.length ∧ ¬ (128 ≤ s.getD p 0 ∧ s.getD p 0 < 192))

instance (s : List Nat) (p : Nat) : Decidable (isCharBoundary s p) := by
  unfold isCharBoundary; infer_instance

/-- A Rust string slice `&s[a..b]`: `none` models the panic on an
out-of-bounds range or a range endpoint that is not a char boundary. -/
def strSlice (s : List Nat) (a b : Nat) : Option (List Nat) :=
  if a ≤ b ∧ b ≤ s.length ∧ isCharBoundary s a ∧ isCharBoundary s b then
    some ((s.drop a).take (b - a))
  else none

/-- The message `ParseIntError` displays for a bad digit, the only failure a
two-character `u8::from_str_radix(_, 16)` call can produce. -/
def invalidDigitMsg : String := "invalid digit found in string"

/-- The indexed loop of `hash_from_hex`: parse pair `i`, then `count - 1`
more.  The outer `Option` is `none` exactly when a slice panics; panicking and
erroring follow the Rust evaluation order (slice first, early return on a
parse error). -/
def hashFromHexGo (s : List Nat) : Nat → Nat → Option (Except HashError (List Nat))
  | _, 0 => some (Except.ok [])
  | i, count + 1 =>
    match strSlice s (i * 2) (i * 2 + 2) with
    | none => none
    | some pair =>
      match fromStrRadix16U8 pair with
      | none => some (Except.error (HashError.ComputationFailed invalidDigitMsg))
      | some b =>
        match hashFromHexGo s (i + 1) count with
        | none => none
        | some (Except.error e) => some (Except.error e)
        | some (Except.ok rest) => some (Except.ok (b :: rest))

/-- `hash_from_hex` (`hash.rs`): length check (in bytes, as Rust `len()`),
then 32 two-character pairs parsed with `u8::from_str_radix(_, 16)`.  The
outer `Option` is `none` exactly when Rust would panic (slicing a multibyte
character); `Except.error` models the `Err` returns. -/
def hash_from_hex (s : List Nat) : Option (Except HashError (List Nat)) :=
  if s.length ≠ 64 then some (Except.error (HashError.InvalidHashLength (s.length / 2)))
  else hashFromHexGo s 0 32

/-- `hash_to_hex` (`hash.rs`): `hex::encode` of the 32 digest bytes. -/
def hash_to_hex (hash : List Nat) : List Nat := hexEncode hash

/-! ## `lib.rs`: the Symmetric Cipher Engine

Randomness (`generate_nonce`, `generate_salt`) is modelled by passing the
sampled bytes as explicit parameters; `OsRng` failure (the
`RandomGenerationFailed` error) is outside the model.  Keys, nonces and salts
are fixed-size arrays in Rust (`[u8; 32]`, `[u8; 24]`), so
`new_from_slice` never fails; theorems carry the corresponding length
hypotheses. -/

/-- `EncryptionError` (`lib.rs`). -/
inductive EncryptionError
  | InvalidKeyLength (n : Nat)
  | EncryptionFailed (msg : String)
  | DecryptionFailed (msg : String)
  | RandomGenerationFailed
  | KeyDerivationFailed (msg : String)
  | InvalidAddress
  deriving DecidableEq, Repr

/-- `EncryptionResult` (`lib.rs`). -/
structure EncryptionResult where
  ciphertext : List Nat
  nonce : List Nat
  content_hash : List Nat
  deriving DecidableEq, Repr

/-- `WalletEncryptionResult` (`lib.rs`). -/
structure WalletEncryptionResult where
  ciphertext : List Nat
  nonce : List Nat
  content_hash : List Nat
  key_derivation_salt : List Nat
  deriving DecidableEq, Repr

/-- `DecryptionResult` (`lib.rs`). -/
structure DecryptionResult where
  content : List Nat
  deriving DecidableEq, Repr

/-- The UTF-8 bytes of the HKDF info string
`b"time-capsule-encryption-key"`. -/
def hkdfInfo : List Nat :=
  [116, 105, 109, 101, 45, 99, 97, 112, 115, 117, 108, 101, 45,
   101, 110, 99, 114, 121, 112, 116, 105, 111, 110, 45, 107, 101, 121]

/-- `wallet_address.starts_with("0x")`, then `&wallet_address[2..]`:
strip a leading `0x` (bytes `48, 120`) if present. -/
def strip0x (wallet_address : List Nat) : List Nat :=
  if wallet_address.take 2 = [48, 120] then wallet_address.drop 2 else wallet_address

/-- The display string of the `hkdf` crate's expand error (unreachable for a
32-byte output, kept for fidelity of the error branch). -/
def hkdfLengthMsg : String := "invalid number of blocks, too large output"

/-- `derive_key_from_wallet` (`lib.rs`): hex-decode the address after
stripping an optional `0x`; concatenate address bytes, capsule-id bytes, the
8-byte little-endian unlock time and the salt into the key material; HKDF
(SHA-256, salt as the extract salt, fixed info string) expanded to 32
bytes. -/
def derive_key_from_wallet (wallet_address capsule_id : List Nat) (unlock_time : Nat)
    (salt : List Nat) : Except EncryptionError (List Nat) :=
  match hexDecodePairs (strip0x wallet_address) with
  | none => Except.error EncryptionError.InvalidAddress
  | some addr_bytes =>
    let key_material := addr_bytes ++ capsule_id ++ leBytes 8 unlock_time ++ salt
    match hkdfExpand (hkdfExtract salt key_material) hkdfInfo 32 with
    | none => Except.error (EncryptionError.KeyDerivationFailed hkdfLengthMsg)
    | some key => Except.ok key

/-- The display string of `aead::Error`, which `decrypt_content` wraps into
`DecryptionFailed`. -/
def aeadErrMsg : String := "aead::Error"

/-- `encrypt_content` (`lib.rs`): XChaCha20-Poly1305 under the given key and
the freshly sampled 24-byte nonce (passed explicitly), plus the BLAKE3
content hash.  Never fails for in-model inputs: the cipher accepts every
32-byte key and every plaintext. -/
def encrypt_content (content key nonce : List Nat) : EncryptionResult :=
  { ciphertext := xchachaPolyEncrypt key nonce content
    nonce := nonce
    content_hash := hash_content_bytes content }

/-- `decrypt_content` (`lib.rs`): XChaCha20-Poly1305 decryption; an
authentication failure surfaces as `DecryptionFailed("aead::Error")`. -/
def decrypt_content (ciphertext nonce key : List Nat) : Except EncryptionError DecryptionResult :=
  match xchachaPolyDecrypt key nonce ciphertext with
  | some content => Except.ok ⟨content⟩
  | none => Except.error (EncryptionError.DecryptionFailed aeadErrMsg)

/-- `encrypt_content_with_wallet` (`lib.rs`): sample a salt and a nonce
(both passed explicitly), derive the key from the wallet context, encrypt,
and return the salt alongside the result. -/
def encrypt_content_with_wallet (content wallet_address capsule_id : List Nat)
    (unlock_time : Nat) (salt nonce : List Nat) :
    Except EncryptionError WalletEncryptionResult :=
  match derive_key_from_wallet wallet_address capsule_id unlock_time salt with
  | Except.error e => Except.error e
  | Except.ok key =>
    Except.ok
      { ciphertext := xchachaPolyEncrypt key nonce content
        nonce := nonce
        content_hash := hash_content_bytes content
        key_derivation_salt := salt }

/-- `decrypt_content_with_wallet` (`lib.rs`): re-derive the key from the
wallet context with the supplied salt, then authenticated decryption (the
Rust body inlines the same cipher calls as `decrypt_content`). -/
def decrypt_content_with_wallet (ciphertext nonce wallet_address capsule_id : List Nat)
    (unlock_time : Nat) (salt : List Nat) : Except EncryptionError DecryptionResult :=
  match derive_key_from_wallet wallet_address capsule_id unlock_time salt with
  | Except.error e => Except.error e
  | Except.ok key =>
    match xchachaPolyDecrypt key nonce ciphertext with
    | some content => Except.ok ⟨content⟩
    | none => Except.error (EncryptionError.DecryptionFailed aeadErrMsg)

/-! ## Basic length and evaluation lemmas -/

instance {ε α : Type} [DecidableEq ε] [DecidableEq α] : DecidableEq (Except ε α)
  | Except.ok a, Except.ok b => decidable_of_iff (a = b) (by simp)
  | Except.ok _, Except.error _ => isFalse (fun h => Except.noConfusion h)
  | Except.error _, Except.ok _ => isFalse (fun h => Except.noConfusion h)
  | Except.error e, Except.error f => decidable_of_iff (e = f) (by simp)

theorem length_leBytes (n x : Nat) : (leBytes n x).length = n := by
  simp [leBytes]

theorem length_chachaKeystream (key nonce : List Nat) (n : Nat) :
    (chachaKeystream key nonce n).length = n := by
  simp [chachaKeystream]

theorem length_xorBytes (a b : List Nat) :
    (xorBytes a b).length = min a.length b.length := by
  simp [xorBytes]

theorem length_poly1305 (key msg : List Nat) : (poly1305 key msg).length = 16 := by
  simp [poly1305, length_leBytes]

theorem length_chachaPolyEncrypt (key nonce pt : List Nat) :
    (chachaPolyEncrypt key nonce pt).length = pt.length + 16 := by
  simp [chachaPolyEncrypt, length_xorBytes, length_chachaKeystream, length_poly1305]

theorem length_xchachaPolyEncrypt (key nonce pt : List Nat) :
    (xchachaPolyEncrypt key nonce pt).length = pt.length + 16 := by
  simp [xchachaPolyEncrypt, length_chachaPolyEncrypt]

theorem xorBytes_xorBytes_cancel (a b : List Nat) (h : a.length ≤ b.length) :
    xorBytes (xorBytes a b) b = a := by
  induction a generalizing b with
  | nil => simp [xorBytes]
  | cons x xs ih =>
    cases b with
    | nil => simp at h
    | cons y ys =>
      simp only [xorBytes, List.zipWith_cons_cons, List.cons.injEq]
      exact ⟨Nat.xor_cancel_right y x, ih ys (by simpa using h)⟩

/-- Authenticated decryption inverts encryption for every key, nonce and
plaintext: the tag recomputed over the ciphertext body matches by
construction, and XORing the keystream twice is the identity. -/
theorem chachaPoly_roundtrip (key nonce pt : List Nat) :
    chachaPolyDecrypt key nonce (chachaPolyEncrypt key nonce pt) = some pt := by
  have hct : (xorBytes pt (chachaKeystream key nonce pt.length)).length = pt.length := by
    simp [length_xorBytes, length_chachaKeystream]
  have htag : (poly1305 (polyKeyBytes key nonce)
      (aeadMacData [] (xorBytes pt (chachaKeystream key nonce pt.length)))).length = 16 :=
    length_poly1305 _ _
  unfold chachaPolyEncrypt chachaPolyDecrypt
  rw [if_neg (by simp [List.length_append, hct, htag])]
  have hsub : (xorBytes pt (chachaKeystream key nonce pt.length) ++
      poly1305 (polyKeyBytes key nonce)
        (aeadMacData [] (xorBytes pt (chachaKeystream key nonce pt.length)))).length - 16
      = (xorBytes pt (chachaKeystream key nonce pt.length)).length := by
    simp [List.length_append, htag]
  rw [hsub, List.take_left, List.drop_left, if_pos rfl, hct]
  exact congrArg some (xorBytes_xorBytes_cancel pt _ (by simp [length_chachaKeystream]))

theorem xchachaPoly_roundtrip (key nonce pt : List Nat) :
    xchachaPolyDecrypt key nonce (xchachaPolyEncrypt key nonce pt) = some pt := by
  unfold xchachaPolyDecrypt xchachaPolyEncrypt
  exact chachaPoly_roundtrip _ _ pt

/-! ## Claim C1 -/

/-- **C1.** For every byte sequence `content` (including the empty one) and
every 32-byte key, encryption followed by decryption with the same key and
the nonce returned by `encrypt_content` succeeds and returns exactly
`content`. -/
theorem C1_encrypt_decrypt_roundtrip (content key nonce : List Nat)
    (hkey : key.length = 32) (hnonce : nonce.length = 24) :
    decrypt_content (encrypt_content content key nonce).ciphertext
      (encrypt_content content key nonce).nonce key = Except.ok ⟨content⟩ := by
  unfold decrypt_content encrypt_content
  simp only [xchachaPoly_roundtrip]

/-- Witness for C1: a concrete 32-byte key, 24-byte nonce and 3-byte content
round-trip. -/
theorem C1_encrypt_decrypt_roundtrip_witness :
    (List.range 32).length = 32 ∧ (List.range 24).length = 24 ∧
    decrypt_content (encrypt_content [1, 2, 3] (List.range 32) (List.range 24)).ciphertext
      (encrypt_content [1, 2, 3] (List.range 32) (List.range 24)).nonce (List.range 32)
      = Except.ok ⟨[1, 2, 3]⟩ :=
  ⟨by decide, by decide,
    C1_encrypt_decrypt_roundtrip [1, 2, 3] (List.range 32) (List.range 24)
      (by decide) (by decide)⟩

theorem length_flatten_of_forall {α : Type} (L : List (List α)) (k : Nat)
    (h : ∀ x ∈ L, x.length = k) : L.flatten.length = k * L.length := by
  induction L with
  | nil => simp
  | cons x xs ih =>
    simp only [List.flatten_cons, List.length_append, List.length_cons,
      h x (List.mem_cons_self x xs), ih (fun y hy => h y (List.mem_cons_of_mem x hy))]
    ring

theorem length_sha256Round (w st : List Nat) (i : Nat) : (sha256Round w st i).length = 8 :=
  rfl

theorem length_foldl_sha256Round (w : List Nat) (l : List Nat) (st : List Nat)
    (h : st.length = 8) : (l.foldl (sha256Round w) st).length = 8 := by
  induction l generalizing st with
  | nil => exact h
  | cons a l ih => exact ih _ (length_sha256Round w st a)

theorem length_sha256Compress (h b : List Nat) (hh : h.length = 8) :
    (sha256Compress h b).length = 8 := by
  unfold sha256Compress
  rw [List.length_zipWith, hh, length_foldl_sha256Round _ _ _ hh]
  rfl

theorem length_foldl_sha256Compress (cs : List (List Nat)) (h : List Nat)
    (hh : h.length = 8) : (cs.foldl sha256Compress h).length = 8 := by
  induction cs generalizing h with
  | nil => exact hh
  | cons c cs ih => exact ih _ (length_sha256Compress h c hh)

theorem length_sha256 (msg : List Nat) : (sha256 msg).length = 32 := by
  unfold sha256
  rw [length_flatten_of_forall _ 4 (by
    intro x hx
    obtain ⟨w, _, rfl⟩ := List.mem_map.mp hx
    exact length_leBytes 4 w)]
  rw [List.length_map, length_foldl_sha256Compress _ _ (by rfl)]

theorem length_hmacSha256 (key msg : List Nat) : (hmacSha256 key msg).length = 32 :=
  length_sha256 _

/-- For a 32-byte output request, HKDF-Expand always succeeds and returns the
single HMAC block `T(1) = HMAC(prk, info ‖ 0x01)`. -/
theorem hkdfExpand32 (prk info : List Nat) :
    hkdfExpand prk info 32 = some (hmacSha256 prk (info ++ [1])) := by
  unfold hkdfExpand
  rw [if_neg (by omega)]
  have h1 : (32 + 31) / 32 = 1 := by norm_num
  rw [h1]
  simp only [hkdfBlocks, List.nil_append, List.getLast?, Option.getD, List.flatten,
    List.append_nil]
  rw [List.take_of_length_le (by rw [length_hmacSha256])]

/-- `derive_key_from_wallet` can only fail with `InvalidAddress`: the KDF
expansion branch (`KeyDerivationFailed`) is unreachable for the fixed 32-byte
output. -/
theorem derive_key_error_cases (a i : List Nat) (t : Nat) (s : List Nat)
    (e : EncryptionError) (h : derive_key_from_wallet a i t s = Except.error e) :
    e = EncryptionError.InvalidAddress := by
  unfold derive_key_from_wallet at h
  cases hd : hexDecodePairs (strip0x a) with
  | none => rw [hd] at h; exact (Except.error.injEq _ _).mp h.symm
  | some d =>
    simp only [hd, hkdfExpand32] at h
    exact Except.noConfusion h

/-! ## Claim C3 -/

/-- **C3.** `derive_key_from_wallet` strips an optional `0x` prefix and
hex-decodes the address, failing with the invalid-address error class
(`InvalidAddress`, the spec's `InvalidAddressEncoding`) exactly when decoding
fails; on success it feeds the fixed-order concatenation
`decoded address ‖ capsule-id bytes ‖ little-endian-64 unlock time ‖ salt`
as key material into HKDF-SHA256 with `salt` as the extract salt and the
fixed info string `hkdfInfo`, and returns exactly 32 bytes.  Determinism is
definitional: the function is pure. -/
theorem C3_derive_key_from_wallet_algorithm :
    (∀ (a i : List Nat) (t : Nat) (s : List Nat),
      hexDecodePairs (strip0x a) = none →
        derive_key_from_wallet a i t s = Except.error EncryptionError.InvalidAddress) ∧
    (∀ (a i : List Nat) (t : Nat) (s d : List Nat),
      hexDecodePairs (strip0x a) = some d →
        ∃ key, hkdfExpand (hkdfExtract s (d ++ i ++ leBytes 8 t ++ s)) hkdfInfo 32 = some key
          ∧ derive_key_from_wallet a i t s = Except.ok key) ∧
    (∀ (a i : List Nat) (t : Nat) (s k : List Nat),
      derive_key_from_wallet a i t s = Except.ok k → k.length = 32) := by
  refine ⟨?_, ?_, ?_⟩
  · intro a i t s h
    unfold derive_key_from_wallet
    rw [h]
  · intro a i t s d h
    refine ⟨hmacSha256 (hkdfExtract s (d ++ i ++ leBytes 8 t ++ s)) (hkdfInfo ++ [1]),
      hkdfExpand32 _ _, ?_⟩
    simp only [derive_key_from_wallet, h, hkdfExpand32]
  · intro a i t s k h
    unfold derive_key_from_wallet at h
    cases hd : hexDecodePairs (strip0x a) with
    | none => rw [hd] at h; exact Except.noConfusion h
    | some d =>
      simp only [hd, hkdfExpand32, Except.ok.injEq] at h
      rw [← h]
      exact length_hmacSha256 _ _

/-- Witness for C3: the address `"0xab"` decodes to `[0xab]`, and the
derivation succeeds with a 32-byte key. -/
theorem C3_derive_key_from_wallet_algorithm_witness :
    hexDecodePairs (strip0x [48, 120, 97, 98]) = some [171] ∧
    (∃ key, hkdfExpand (hkdfExtract (List.replicate 32 0)
        ([171] ++ [99] ++ leBytes 8 5 ++ List.replicate 32 0)) hkdfInfo 32 = some key
      ∧ derive_key_from_wallet [48, 120, 97, 98] [99] 5 (List.replicate 32 0)
          = Except.ok key) :=
  ⟨by decide,
    C3_derive_key_from_wallet_algorithm.2.1 [48, 120, 97, 98] [99] 5
      (List.replicate 32 0) [171] (by decide)⟩

/-! ## Claim C10 -/

/-- **C10.** The derived key depends on the wallet address, capsule id and
unlock time only through the concatenation
`decoded address ‖ capsule-id bytes ‖ le64 unlock time`: two input triples
with the same salt whose concatenations agree derive equal keys.  (In
particular an address with and without `0x` derives the same key, and hex
bytes may move between the address tail and the capsule-id head.) -/
theorem C10_derive_key_depends_only_on_key_material
    (a1 i1 : List Nat) (t1 : Nat) (a2 i2 : List Nat) (t2 : Nat) (s d1 d2 : List Nat)
    (h1 : hexDecodePairs (strip0x a1) = some d1)
    (h2 : hexDecodePairs (strip0x a2) = some d2)
    (hcat : d1 ++ i1 ++ leBytes 8 t1 = d2 ++ i2 ++ leBytes 8 t2) :
    derive_key_from_wallet a1 i1 t1 s = derive_key_from_wallet a2 i2 t2 s := by
  have hkm : d1 ++ i1 ++ leBytes 8 t1 ++ s = d2 ++ i2 ++ leBytes 8 t2 ++ s := by
    have h := congrArg (fun l => l ++ s) hcat
    simpa [List.append_assoc] using h
  simp only [derive_key_from_wallet, h1, h2]
  rw [hkm]

/-- Witness for C10: moving the hex byte `0x61` (`"a"`) from the address
`"0061"` into the capsule id derives the same key as `("00", "a")`. -/
theorem C10_derive_key_depends_only_on_key_material_witness :
    hexDecodePairs (strip0x [48, 48, 54, 49]) = some [0, 97] ∧
    hexDecodePairs (strip0x [48, 48]) = some [0] ∧
    [0, 97] ++ [] ++ leBytes 8 0 = [0] ++ [97] ++ leBytes 8 0 ∧
    derive_key_from_wallet [48, 48, 54, 49] [] 0 (List.replicate 32 7)
      = derive_key_from_wallet [48, 48] [97] 0 (List.replicate 32 7) :=
  ⟨by decide, by decide, by decide,
    C10_derive_key_depends_only_on_key_material [48, 48, 54, 49] [] 0 [48, 48] [97] 0
      (List.replicate 32 7) [0, 97] [0] (by decide) (by decide) (by decide)⟩

/-! ## Claim C4 -/

/-- **C4 (amended).** `decrypt_content_with_wallet` re-derives the key via
`derive_key_from_wallet` from the wallet address, capsule id, unlock time and
salt — the nonce does not enter key derivation — and then performs exactly
the authenticated decryption of `decrypt_content` with that key; and its
only error results are the invalid-address class and the single
authentication-failure class `DecryptionFailed("aead::Error")` — there is no
separate wrong-context error. -/
theorem C4_decrypt_with_wallet_structure :
    (∀ (ct n a i : List Nat) (t : Nat) (s : List Nat),
      decrypt_content_with_wallet ct n a i t s =
        match derive_key_from_wallet a i t s with
        | Except.error e => Except.error e
        | Except.ok key => decrypt_content ct n key) ∧
    (∀ (ct n a i : List Nat) (t : Nat) (s : List Nat) (e : EncryptionError),
      decrypt_content_with_wallet ct n a i t s = Except.error e →
        e = EncryptionError.InvalidAddress
          ∨ e = EncryptionError.DecryptionFailed aeadErrMsg) := by
  constructor
  · intro ct n a i t s
    unfold decrypt_content_with_wallet decrypt_content
    cases derive_key_from_wallet a i t s with
    | error e => rfl
    | ok key => rfl
  · intro ct n a i t s e h
    unfold decrypt_content_with_wallet at h
    cases hd : derive_key_from_wallet a i t s with
    | error e2 =>
      rw [hd] at h
      exact Or.inl (((Except.error.injEq _ _).mp h) ▸ derive_key_error_cases a i t s e2 hd)
    | ok key =>
      simp only [hd] at h
      cases hx : xchachaPolyDecrypt key n ct with
      | some c => simp only [hx] at h; exact Except.noConfusion h
      | none =>
        simp only [hx] at h
        exact Or.inr ((Except.error.injEq _ _).mp h).symm

/-- Witness for C4: a malformed (odd-length) address makes
`decrypt_content_with_wallet` fail with `InvalidAddress`, which the theorem
classifies. -/
theorem C4_decrypt_with_wallet_structure_witness :
    decrypt_content_with_wallet [] (List.range 24) [48] [] 0 (List.replicate 32 0)
        = Except.error EncryptionError.InvalidAddress ∧
    (EncryptionError.InvalidAddress = EncryptionError.InvalidAddress
      ∨ EncryptionError.InvalidAddress = EncryptionError.DecryptionFailed aeadErrMsg) :=
  ⟨by decide,
    C4_decrypt_with_wallet_structure.2 [] (List.range 24) [48] [] 0
      (List.replicate 32 0) EncryptionError.InvalidAddress (by decide)⟩

/-- The nonce used at decryption, concretely flipped in its first byte. -/
def c4Nonce2 : List Nat := 1 :: (List.range 24).drop 1

set_option maxRecDepth 100000 in
set_option maxHeartbeats 1000000 in
/-- Counterexample to C4 as stated: with every key-derivation input held
fixed and only the nonce mismatched, the re-derived key **equals** the
encryption-time key (key derivation does not consume the nonce), so the
claim's "any mismatch in any of the five non-ciphertext inputs results in a
derived key differing from the original" is false — yet decryption still
fails with the authentication-failure class. -/
theorem C4_nonce_mismatch_counterexample :
    List.range 24 ≠ c4Nonce2 ∧
    ¬ derive_key_from_wallet [48, 48] [] 0 (List.replicate 32 0)
        ≠ derive_key_from_wallet [48, 48] [] 0 (List.replicate 32 0) ∧
    (encrypt_content_with_wallet [] [48, 48] [] 0 (List.replicate 32 0)
        (List.range 24)).map
        (fun r => decrypt_content_with_wallet r.ciphertext c4Nonce2 [48, 48] [] 0
          (List.replicate 32 0))
      = Except.ok (Except.error (EncryptionError.DecryptionFailed aeadErrMsg)) :=
  ⟨by decide, fun h => h rfl, by decide⟩

/-! ## Claim C8 -/

/-- **C8.** `encrypt_content` is total in the model (it fails for no content
size or value; its only Rust failure path is the out-of-model OS RNG), and
the ciphertext is exactly the plaintext plus the fixed 16-byte tag; empty
content yields a tag-only 16-byte ciphertext. -/
theorem C8_ciphertext_length :
    (∀ content key nonce : List Nat,
      (encrypt_content content key nonce).ciphertext.length = content.length + 16) ∧
    (∀ key nonce : List Nat,
      (encrypt_content [] key nonce).ciphertext.length = 16) := by
  constructor
  · intro content key nonce
    simpa [encrypt_content] using length_xchachaPolyEncrypt key nonce content
  · intro key nonce
    simpa [encrypt_content] using length_xchachaPolyEncrypt key nonce []

/-! ## Claim C7 -/

theorem hashMultiple_foldl (contents : List (List Nat)) (h : List Nat) (n : Nat) :
    contents.foldl (fun (p : Hasher × Nat) content =>
        (p.1.update content, p.2 + content.length)) (⟨h⟩, n)
      = (⟨h ++ contents.flatten⟩, n + (contents.map List.length).sum) := by
  induction contents generalizing h n with
  | nil => simp
  | cons c cs ih =>
    rw [List.foldl_cons, show (⟨h⟩ : Hasher).update c = (⟨h ++ c⟩ : Hasher) from rfl,
      ih (h ++ c) (n + c.length)]
    simp [List.append_assoc, Nat.add_assoc]

set_option maxRecDepth 100000 in
/-- **C7.** Hashing an ordered sequence of pieces incrementally equals hashing
their in-order concatenation — for two pieces and in general — while the
order of the pieces matters (a concrete pair of single-byte pieces hashes
differently in the two orders). -/
theorem C7_hash_multiple_equals_hash_of_concat :
    (∀ a b : List Nat, hash_multiple_contents [a, b] = hash_content (a ++ b)) ∧
    (∀ l : List (List Nat), hash_multiple_contents l = hash_content l.flatten) ∧
    hash_multiple_contents [[97], [98]] ≠ hash_multiple_contents [[98], [97]] := by
  have hgen : ∀ l : List (List Nat), hash_multiple_contents l = hash_content l.flatten := by
    intro l
    unfold hash_multiple_contents hash_content
    rw [show (Hasher.new : Hasher) = ⟨[]⟩ from rfl, hashMultiple_foldl]
    simp [Hasher.update, Hasher.finalize, HashResult.mk.injEq, List.length_flatten]
  refine ⟨?_, hgen, by decide⟩
  intro a b
  rw [hgen [a, b]]
  simp

/-! ## Hex-digit and pair-parsing lemmas (support for C6 and C9) -/

/-- Reference reading of the `hash_from_hex` parse loop: consume the string
two characters at a time. -/
def parsePairs : List Nat → Except HashError (List Nat)
  | [] => Except.ok []
  | a :: b :: rest =>
    match fromStrRadix16U8 [a, b] with
    | none => Except.error (HashError.ComputationFailed invalidDigitMsg)
    | some v =>
      match parsePairs rest with
      | Except.error e => Except.error e
      | Except.ok r => Except.ok (v :: r)
  | [_] => Except.error (HashError.ComputationFailed invalidDigitMsg)

theorem hexDigitVal_cases (c v : Nat) (h : hexDigitVal c = some v) :
    v < 16 ∧ ((48 ≤ c ∧ c ≤ 57) ∨ (97 ≤ c ∧ c ≤ 102) ∨ (65 ≤ c ∧ c ≤ 70)) := by
  unfold hexDigitVal at h
  split_ifs at h with h1 h2 h3 <;> rw [Option.some.injEq] at h <;> omega

theorem hexDigitVal_hexDigitChar (d : Nat) (h : d < 16) :
    hexDigitVal (hexDigitChar d) = some d := by
  unfold hexDigitVal hexDigitChar
  split_ifs <;> first
    | (rw [Option.some.injEq]; omega)
    | omega

theorem hexDigitChar_range (d : Nat) (h : d < 16) :
    (48 ≤ hexDigitChar d ∧ hexDigitChar d ≤ 57)
      ∨ (97 ≤ hexDigitChar d ∧ hexDigitChar d ≤ 102) := by
  unfold hexDigitChar
  split_ifs <;> omega

theorem length_hexEncode (bs : List Nat) : (hexEncode bs).length = 2 * bs.length := by
  unfold hexEncode
  rw [length_flatten_of_forall _ 2 (by
    intro x hx
    obtain ⟨b, _, rfl⟩ := List.mem_map.mp hx
    rfl)]
  rw [List.length_map]

theorem mem_hexEncode (bs : List Nat) (hb : ∀ b ∈ bs, b < 256) (c : Nat)
    (h : c ∈ hexEncode bs) : ∃ d, d < 16 ∧ c = hexDigitChar d := by
  unfold hexEncode at h
  obtain ⟨x, hx, hcx⟩ := List.mem_flatten.mp h
  obtain ⟨b, hbm, rfl⟩ := List.mem_map.mp hx
  have hb2 : b < 256 := hb b hbm
  simp only [List.mem_cons, List.not_mem_nil, or_false] at hcx
  rcases hcx with rfl | rfl
  · exact ⟨b / 16, by omega, rfl⟩
  · exact ⟨b % 16, Nat.mod_lt _ (by omega), rfl⟩

theorem fromStrRadix16U8_pair (a b va vb : Nat) (ha : hexDigitVal a = some va)
    (hb : hexDigitVal b = some vb) (hne : a ≠ 43) :
    fromStrRadix16U8 [a, b] = some (va * 16 + vb) := by
  have hva := (hexDigitVal_cases a va ha).1
  have hvb := (hexDigitVal_cases b vb hb).1
  unfold fromStrRadix16U8
  simp only [if_neg hne, List.foldlM_cons, List.foldlM_nil, ha, hb,
    Option.bind_eq_bind, Option.some_bind, Option.pure_def, Nat.zero_mul, Nat.zero_add]
  rw [if_neg (by simp), if_pos (by omega : va ≤ 255)]
  simp only [Option.bind_eq_bind, Option.some_bind]
  rw [if_pos (by omega : va * 16 + vb ≤ 255)]
  rfl

theorem parsePairs_hexEncode (bs : List Nat) (h : ∀ b ∈ bs, b < 256) :
    parsePairs (hexEncode bs) = Except.ok bs := by
  induction bs with
  | nil => rfl
  | cons b rest ih =>
    have hb : b < 256 := h b (List.mem_cons_self b rest)
    have hbd : b / 16 < 16 := by omega
    have hbm : b % 16 < 16 := Nat.mod_lt _ (by omega)
    have hne : hexDigitChar (b / 16) ≠ 43 := by
      rcases hexDigitChar_range (b / 16) hbd with h1 | h1 <;> omega
    have hstep : hexEncode (b :: rest)
        = hexDigitChar (b / 16) :: hexDigitChar (b % 16) :: hexEncode rest := by
      simp [hexEncode]
    rw [hstep]
    unfold parsePairs
    rw [fromStrRadix16U8_pair _ _ (b / 16) (b % 16) (hexDigitVal_hexDigitChar _ hbd)
      (hexDigitVal_hexDigitChar _ hbm) hne]
    rw [ih (fun x hx => h x (List.mem_cons_of_mem b hx))]
    rw [show b / 16 * 16 + b % 16 = b from by omega]

theorem boundary_of_ascii (s : List Nat) (hascii : ∀ b ∈ s, b < 128) (p : Nat)
    (hp : p ≤ s.length) : isCharBoundary s p := by
  rcases Nat.lt_or_ge p s.length with h | h
  · right; right
    refine ⟨h, ?_⟩
    have hmem : s.getD p 0 ∈ s := by
      rw [List.getD_eq_getElem s 0 h]
      exact List.getElem_mem h
    have := hascii _ hmem
    omega
  · right; left; omega

theorem strSlice_ascii (s : List Nat) (hascii : ∀ b ∈ s, b < 128) (a : Nat)
    (hb : a + 2 ≤ s.length) : strSlice s a (a + 2) = some ((s.drop a).take 2) := by
  unfold strSlice
  rw [if_pos ⟨by omega, hb, boundary_of_ascii s hascii a (by omega),
    boundary_of_ascii s hascii (a + 2) hb⟩]
  rw [show a + 2 - a = 2 from by omega]

/-- The indexed parse loop of `hash_from_hex` never panics on an ASCII string
of the right length, and agrees with the two-at-a-time reference parser on
the corresponding substring. -/
theorem hashFromHexGo_eq_parsePairs (s : List Nat) (hlen : s.length = 64)
    (hascii : ∀ b ∈ s, b < 128) :
    ∀ (k i : Nat), i * 2 + k * 2 ≤ 64 →
      hashFromHexGo s i k = some (parsePairs ((s.drop (i * 2)).take (k * 2))) := by
  intro k
  induction k with
  | zero => intro i h; simp [hashFromHexGo, parsePairs]
  | succ k ih =>
    intro i h
    have hb : i * 2 + 2 ≤ s.length := by omega
    have hslice := strSlice_ascii s hascii (i * 2) hb
    have hlen2 : 2 ≤ (s.drop (i * 2)).length := by
      rw [List.length_drop]; omega
    obtain ⟨x, t1, hxt⟩ : ∃ x t1, s.drop (i * 2) = x :: t1 := by
      cases hc : s.drop (i * 2) with
      | nil => rw [hc] at hlen2; simp at hlen2
      | cons x t => exact ⟨x, t, rfl⟩
    obtain ⟨y, t2, hyt⟩ : ∃ y t2, t1 = y :: t2 := by
      cases hc : t1 with
      | nil => rw [hxt, hc] at hlen2; simp at hlen2
      | cons y t => exact ⟨y, t, rfl⟩
    rw [hxt, hyt] at hslice
    have hdrop2 : s.drop ((i + 1) * 2) = t2 := by
      rw [show (i + 1) * 2 = i * 2 + 2 from by ring, ← List.drop_drop, hxt, hyt]
      rfl
    have hih := ih (i + 1) (by omega)
    rw [hdrop2] at hih
    unfold hashFromHexGo
    rw [hslice, hxt, hyt]
    rw [show (k + 1) * 2 = k * 2 + 1 + 1 from by ring]
    rw [List.take_succ_cons, List.take_succ_cons]
    cases hfr : fromStrRadix16U8 [x, y] with
    | none => simp [parsePairs, hfr]
    | some v =>
      rw [hih]
      cases hp : parsePairs (t2.take (k * 2)) with
      | error e => simp [parsePairs, hfr, hp]
      | ok r => simp [parsePairs, hfr, hp]

/-! ## Claim C9 -/

/-- **C9.** For every 32-byte digest, `hash_to_hex` produces a lowercase
64-character hex string and `hash_from_hex` parses it back to exactly the
original bytes (no panic, no error). -/
theorem C9_hex_roundtrip (h : List Nat) (hlen : h.length = 32)
    (hbytes : ∀ b ∈ h, b < 256) :
    hash_from_hex (hash_to_hex h) = some (Except.ok h) ∧
    (hash_to_hex h).length = 64 ∧
    (∀ c ∈ hash_to_hex h, (48 ≤ c ∧ c ≤ 57) ∨ (97 ≤ c ∧ c ≤ 102)) := by
  have hlenE : (hexEncode h).length = 64 := by rw [length_hexEncode, hlen]
  have hmem : ∀ c ∈ hexEncode h, (48 ≤ c ∧ c ≤ 57) ∨ (97 ≤ c ∧ c ≤ 102) := by
    intro c hc
    obtain ⟨d, hd, rfl⟩ := mem_hexEncode h hbytes c hc
    exact hexDigitChar_range d hd
  have hascii : ∀ c ∈ hexEncode h, c < 128 := by
    intro c hc
    rcases hmem c hc with h1 | h1 <;> omega
  refine ⟨?_, hlenE, hmem⟩
  unfold hash_to_hex hash_from_hex
  rw [if_neg (by omega)]
  rw [hashFromHexGo_eq_parsePairs (hexEncode h) hlenE hascii 32 0 (by omega)]
  rw [Nat.zero_mul, List.drop_zero, List.take_of_length_le (by omega)]
  rw [parsePairs_hexEncode h hbytes]

/-- Witness for C9: the digest bytes `0, 1, …, 31` round-trip through hex. -/
theorem C9_hex_roundtrip_witness :
    (List.range 32).length = 32 ∧ (∀ b ∈ List.range 32, b < 256) ∧
    hash_from_hex (hash_to_hex (List.range 32)) = some (Except.ok (List.range 32)) :=
  ⟨by decide, by decide,
    (C9_hex_roundtrip (List.range 32) (by decide) (by decide)).1⟩

/-! ## Claim C6 -/

theorem parsePairs_ok_of_hex : ∀ (l : List Nat), l.length % 2 = 0 →
    (∀ c ∈ l, (hexDigitVal c).isSome) → ∃ bs, parsePairs l = Except.ok bs
  | [], _, _ => ⟨[], rfl⟩
  | [_], h, _ => by simp at h
  | a :: b :: rest, h, hhex => by
    obtain ⟨va, hva⟩ := Option.isSome_iff_exists.mp
      (hhex a (List.mem_cons_self a (b :: rest)))
    obtain ⟨vb, hvb⟩ := Option.isSome_iff_exists.mp
      (hhex b (List.mem_cons_of_mem a (List.mem_cons_self b rest)))
    have hne : a ≠ 43 := by
      intro hc
      rw [hc] at hva
      exact Option.noConfusion ((by decide : hexDigitVal 43 = none) ▸ hva)
    obtain ⟨bs, hbs⟩ := parsePairs_ok_of_hex rest
      (by simp only [List.length_cons] at h; omega)
      (fun c hc => hhex c (List.mem_cons_of_mem a (List.mem_cons_of_mem b hc)))
    refine ⟨(va * 16 + vb) :: bs, ?_⟩
    unfold parsePairs
    rw [fromStrRadix16U8_pair a b va vb hva hvb hne, hbs]

theorem parsePairs_total : ∀ (l : List Nat), l.length % 2 = 0 →
    (∃ bs, parsePairs l = Except.ok bs) ∨
      parsePairs l = Except.error (HashError.ComputationFailed invalidDigitMsg)
  | [], _ => Or.inl ⟨[], rfl⟩
  | [_], h => by simp at h
  | a :: b :: rest, h => by
    cases hfr : fromStrRadix16U8 [a, b] with
    | none =>
      right
      unfold parsePairs
      rw [hfr]
    | some v =>
      rcases parsePairs_total rest (by simp only [List.length_cons] at h; omega)
        with ⟨bs, hbs⟩ | herr
      · left
        refine ⟨v :: bs, ?_⟩
        unfold parsePairs
        rw [hfr, hbs]
      · right
        unfold parsePairs
        rw [hfr, herr]

/-- **C6 (amended).** `hash_from_hex` fails with the invalid-encoding error
class (`InvalidHashLength`, reporting `len / 2`) on every byte length other
than 64; on 64 hex digits it succeeds; and on every 64-byte ASCII string it
returns a result (success or the `ComputationFailed` parse error) rather
than any other behaviour.  (The original claim's "any non-hex character
fails" is refuted by `C6_plus_sign_counterexample`: `u8::from_str_radix`
accepts a leading `+` in a two-character pair.) -/
theorem C6_hash_from_hex_validation :
    (∀ s : List Nat, s.length ≠ 64 →
      hash_from_hex s
        = some (Except.error (HashError.InvalidHashLength (s.length / 2)))) ∧
    (∀ s : List Nat, s.length = 64 → (∀ c ∈ s, (hexDigitVal c).isSome) →
      ∃ bs, hash_from_hex s = some (Except.ok bs)) ∧
    (∀ s : List Nat, s.length = 64 → (∀ c ∈ s, c < 128) →
      (∃ bs, hash_from_hex s = some (Except.ok bs)) ∨
        hash_from_hex s
          = some (Except.error (HashError.ComputationFailed invalidDigitMsg))) := by
  refine ⟨?_, ?_, ?_⟩
  · intro s h
    unfold hash_from_hex
    rw [if_pos h]
  · intro s hlen hhex
    have hascii : ∀ c ∈ s, c < 128 := by
      intro c hc
      obtain ⟨v, hv⟩ := Option.isSome_iff_exists.mp (hhex c hc)
      rcases (hexDigitVal_cases c v hv).2 with h1 | h1 | h1 <;> omega
    obtain ⟨bs, hbs⟩ := parsePairs_ok_of_hex s (by omega) hhex
    refine ⟨bs, ?_⟩
    unfold hash_from_hex
    rw [if_neg (by omega)]
    rw [hashFromHexGo_eq_parsePairs s hlen hascii 32 0 (by omega)]
    rw [Nat.zero_mul, List.drop_zero, List.take_of_length_le (by omega), hbs]
  · intro s hlen hascii
    have hloop := hashFromHexGo_eq_parsePairs s hlen hascii 32 0 (by omega)
    rw [Nat.zero_mul, List.drop_zero, List.take_of_length_le (by omega)] at hloop
    rcases parsePairs_total s (by omega) with ⟨bs, hbs⟩ | herr
    · left
      refine ⟨bs, ?_⟩
      unfold hash_from_hex
      rw [if_neg (by omega), hloop, hbs]
    · right
      unfold hash_from_hex
      rw [if_neg (by omega), hloop, herr]

/-- Witness for C6: a 63-character string fails with the length error, and
the all-`'0'` 64-character string parses to 32 zero bytes. -/
theorem C6_hash_from_hex_validation_witness :
    (List.replicate 63 48).length ≠ 64 ∧
    hash_from_hex (List.replicate 63 48)
      = some (Except.error (HashError.InvalidHashLength
          ((List.replicate 63 48).length / 2))) ∧
    (List.replicate 64 48).length = 64 ∧
    (∀ c ∈ List.replicate 64 48, (hexDigitVal c).isSome) ∧
    (∃ bs, hash_from_hex (List.replicate 64 48) = some (Except.ok bs)) :=
  ⟨by decide,
    C6_hash_from_hex_validation.1 (List.replicate 63 48) (by decide),
    by decide, by decide,
    C6_hash_from_hex_validation.2.1 (List.replicate 64 48) (by decide) (by decide)⟩

set_option maxRecDepth 10000 in
/-- Counterexample to C6 as stated: the 64-character string `"+1+1…+1"`
contains the non-hex character `'+'` (byte 43) in every pair, yet
`hash_from_hex` succeeds and returns 32 bytes of value 1, because Rust's
`u8::from_str_radix` accepts a leading `+` sign inside each two-character
pair.  Moreover, a 64-byte string whose second character is the two-byte
`'é'` makes the slice `&s[0..2]` fall on a non-character boundary, which in
Rust panics rather than returning an error (modelled as `none`). -/
theorem C6_plus_sign_counterexample :
    ((List.replicate 32 [43, 49]).flatten).length = 64 ∧
    43 ∈ (List.replicate 32 [43, 49]).flatten ∧
    hexDigitVal 43 = none ∧
    hash_from_hex ((List.replicate 32 [43, 49]).flatten)
      = some (Except.ok (List.replicate 32 1)) ∧
    (97 :: 195 :: 169 :: List.replicate 61 48).length = 64 ∧
    hash_from_hex (97 :: 195 :: 169 :: List.replicate 61 48) = none :=
  ⟨by decide, by decide, by decide, by decide, by decide, by decide⟩

end TimeCapsule
